import Mathlib

/-!
# Verification of the chunksmith PDF-chunking core

Shallow embedding of the segmentation core of the chunksmith repository
(`src/backend/chunkers/{base,basic,semantic,topic}.py` and
`src/backend/api.py`), together with proofs about the claims of its
specification.

Modelling conventions:
* Python floats are modelled as rationals (`ℚ`).
* A PDF document (the `fitz` capability) is modelled abstractly as the data
  the chunkers read from it: per page, the structural blocks returned by
  `page.get_text("dict")["blocks"]` (a block either has no `"lines"` key —
  an image block — or is a list of lines, each a list of spans carrying text
  and a bounding box), plus the word list returned by
  `page.get_text("words")`.
* The sentence-embedding model and sklearn's `cosine_similarity` are
  black-box capabilities; they are parameters (`encode`, `cos`) of the
  embedding-based chunkers.  sklearn's `KMeans.fit_predict` is likewise a
  black box; the topic chunker is parametrised by the label list it returns.
* `numpy.percentile` (default linear-interpolation method) is implemented
  directly (`npPercentile`), since the claims depend on its mathematical
  behaviour.
* `uuid.uuid4()` produces a fresh opaque identifier irrelevant to every
  claim; the `id` field of `Chunk` is therefore omitted from the model.
-/

/-- Bounding box of a piece of text, `base.py` `BoundingBox`. -/
structure BoundingBox where
  page : ℕ
  x0 : ℚ
  y0 : ℚ
  x1 : ℚ
  y1 : ℚ
deriving DecidableEq, Repr

/-- Output chunk, `base.py` `Chunk`.  The `id` field (a fresh `uuid4`) is
omitted; metadata values occurring in this program are integers. -/
structure Chunk where
  text : String
  bboxes : List BoundingBox
  metadata : List (String × Int)
deriving DecidableEq, Repr

/-- One span of `page.get_text("dict")` structural extraction:
text plus a 4-coordinate bounding box. -/
structure Span where
  text : String
  x0 : ℚ
  y0 : ℚ
  x1 : ℚ
  y1 : ℚ
deriving DecidableEq, Repr

/-- A line is a list of spans (`line["spans"]`). -/
abbrev Line := List Span

/-- A structural block: `none` models a block without a `"lines"` key
(image block, skipped by every extraction pass). -/
structure Block where
  lines : Option (List Line)
deriving DecidableEq, Repr

/-- One entry of `page.get_text("words")`:
`(x0, y0, x1, y1, "word", block_no, line_no, word_no)`. -/
structure Word where
  x0 : ℚ
  y0 : ℚ
  x1 : ℚ
  y1 : ℚ
  text : String
  block : Int
  line : Int
  word_no : Int
deriving DecidableEq, Repr

/-- A page as observed by the chunkers: structural blocks
(`get_text("dict")["blocks"]`) and the word list (`get_text("words")`). -/
structure Page where
  blocks : List Block
  words : List Word
deriving DecidableEq, Repr

/-- A document is its list of pages. -/
abbrev Document := List Page

/-- Intermediate sentence unit of the extraction passes
(`{"text": ..., "bboxes": [...]}` dicts in `semantic.py` / `topic.py`). -/
structure SentenceUnit where
  text : String
  bboxes : List BoundingBox
deriving DecidableEq, Repr

/-- Python `str.strip()` with no argument: remove leading and trailing
whitespace.  Defined over the character list so that it reduces inside the
kernel (unlike `String.trim`, which it agrees with on the whitespace
characters occurring in this development). -/
def String.pyStrip (s : String) : String :=
  ⟨((s.data.dropWhile Char.isWhitespace).reverse.dropWhile Char.isWhitespace).reverse⟩

/-- Last character of a string, if any. -/
def lastChar (s : String) : Option Char :=
  s.data.getLast?

/-- Python `text.strip().endswith((".", "!", "?"))`: the trimmed text ends
in one of the three sentence-terminal characters. -/
def endsTerminal (s : String) : Bool :=
  lastChar s.pyStrip = some '.' || lastChar s.pyStrip = some '!' || lastChar s.pyStrip = some '?'

/-- Python `text.strip().endswith(".")` (the `SentenceChunker` condition). -/
def endsPeriod (s : String) : Bool :=
  lastChar s.pyStrip = some '.'

/-! ## Span Extractor of `SemanticChunker._extract_sentences` and
`TopicChunker._extract_sentences` (the two bodies are line-for-line
identical in the source). -/

/-- Processing of one span inside `_extract_sentences`: insert a space if
the accumulator is non-empty and does not end in `" "`, append the span's
text and bounding box, then close the accumulator as a `SentenceUnit`
exactly when the span's trimmed text ends in `.`, `!` or `?`.
Returns the new accumulator and the emitted unit, if any. -/
def extractStep (page : ℕ) (acc : String × List BoundingBox) (sp : Span) :
    (String × List BoundingBox) × Option SentenceUnit :=
  let t0 := if acc.1 ≠ "" ∧ lastChar acc.1 ≠ some ' ' then acc.1 ++ " " else acc.1
  let t := t0 ++ sp.text
  let bs := acc.2 ++ [⟨page, sp.x0, sp.y0, sp.x1, sp.y1⟩]
  if endsTerminal sp.text then
    (("", []), some ⟨t.pyStrip, bs⟩)
  else
    ((t, bs), none)

/-- `_extract_sentences` over one structural block: fold `extractStep` over
the block's spans (all lines concatenated, matching the nested
`for line in block["lines"]: for span in line["spans"]`), then close any
remaining non-whitespace text as a final unit. -/
def extractBlock (page : ℕ) (spans : List Span) : List SentenceUnit :=
  let r := spans.foldl
    (fun (st : (String × List BoundingBox) × List SentenceUnit) sp =>
      let s2 := extractStep page st.1 sp
      (s2.1, st.2 ++ s2.2.toList))
    (("", []), [])
  if r.1.1.pyStrip ≠ "" then r.2 ++ [⟨r.1.1.pyStrip, r.1.2⟩] else r.2

/-- `_extract_sentences` over one page: blocks without a `"lines"` key are
skipped; each block contributes its units in order. -/
def extractPage (pageNum : ℕ) (p : Page) : List SentenceUnit :=
  ((p.blocks.filterMap (·.lines)).map (fun lines => extractBlock pageNum lines.flatten)).flatten

/-- `_extract_sentences` over the whole document (pages in order, page
numbers from `range(len(doc))`). -/
def extractSentences (doc : Document) : List SentenceUnit :=
  (doc.enum.map (fun pr => extractPage pr.1 pr.2)).flatten

/-! ## `BasicWordChunker` (`basic.py`) -/

/-- `BasicWordChunker.chunk`: one chunk per word of `get_text("words")`,
with a single bounding box and `{"block": ..., "line": ...}` metadata. -/
def basicWordChunk (doc : Document) : List Chunk :=
  (doc.enum.map (fun pr =>
    pr.2.words.map (fun w =>
      Chunk.mk w.text [⟨pr.1, w.x0, w.y0, w.x1, w.y1⟩]
        [("block", w.block), ("line", w.line)]))).flatten

/-! ## `SentenceChunker` (`basic.py`) -/

/-- Processing of one span inside `SentenceChunker.chunk`: append the
span's text plus a trailing space and its bounding box, then close the
accumulator as a chunk exactly when the span's trimmed text ends in `.`
(only the period — unlike the other extraction passes). -/
def sentStep (page : ℕ) (acc : String × List BoundingBox) (sp : Span) :
    (String × List BoundingBox) × Option Chunk :=
  let t := acc.1 ++ sp.text ++ " "
  let bs := acc.2 ++ [⟨page, sp.x0, sp.y0, sp.x1, sp.y1⟩]
  if endsPeriod sp.text then
    (("", []), some ⟨t.pyStrip, bs, []⟩)
  else
    ((t, bs), none)

/-- `SentenceChunker.chunk` over one structural block, including the final
"remaining text in block" chunk. -/
def sentBlock (page : ℕ) (spans : List Span) : List Chunk :=
  let r := spans.foldl
    (fun (st : (String × List BoundingBox) × List Chunk) sp =>
      let s2 := sentStep page st.1 sp
      (s2.1, st.2 ++ s2.2.toList))
    (("", []), [])
  if r.1.1.pyStrip ≠ "" then r.2 ++ [⟨r.1.1.pyStrip, r.1.2, []⟩] else r.2

/-- `SentenceChunker.chunk` over the whole document. -/
def sentenceChunk (doc : Document) : List Chunk :=
  (doc.enum.map (fun pr =>
    ((pr.2.blocks.filterMap (·.lines)).map
      (fun lines => sentBlock pr.1 lines.flatten)).flatten)).flatten

/-! ## `numpy.percentile` (default linear interpolation), used by
`SemanticChunker.chunk` to turn `percentile_threshold` into a distance
threshold. -/

/-- Linear interpolation at virtual index `h` into the sorted list `s` of
length `m + 1`: `s[i] + (h - i) * (s[i+1] - s[i])` with `i = ⌊h⌋`,
clamped to the last element once `i ≥ m`. -/
def interpAt (s : List ℚ) (m : ℕ) (h : ℚ) : ℚ :=
  if (⌊h⌋).toNat < m then
    s.getD (⌊h⌋).toNat 0
      + (h - ((⌊h⌋).toNat : ℚ)) * (s.getD ((⌊h⌋).toNat + 1) 0 - s.getD (⌊h⌋).toNat 0)
  else s.getD m 0

/-- `numpy.percentile(l, q)` with the default linear-interpolation method:
sort ascending, then interpolate at virtual index `q * (len - 1) / 100`.
(numpy rejects an empty array; the value returned here for `[]` is never
reached by the program, which only calls this on non-empty lists.) -/
def npPercentile (l : List ℚ) (q : ℚ) : ℚ :=
  interpAt (l.insertionSort (· ≤ ·)) (l.length - 1) (q * ((l.length - 1 : ℕ) : ℚ) / 100)

/-! ## `SemanticChunker` (`semantic.py`) -/

/-- The sliding-window text for sentence `i`:
`" ".join(texts[max(0, i - w) : min(n, i + w + 1)])`
(natural subtraction gives exactly `max(0, i - w)`). -/
def windowText (sents : List SentenceUnit) (w i : ℕ) : String :=
  let start := i - w
  let stop := min sents.length (i + w + 1)
  String.intercalate " " (((sents.drop start).take (stop - start)).map (·.text))

/-- Adjacent cosine distances of `SemanticChunker.chunk` steps 2–4:
embed each window text, clamp each adjacent cosine similarity to
`[-1, 1]`, and take `1 - sim`.  `encode` is the black-box embedding model
and `cos` the black-box cosine similarity. -/
def semDistances {E : Type} (encode : String → E) (cos : E → E → ℚ)
    (w : ℕ) (sents : List SentenceUnit) : List ℚ :=
  (List.range (sents.length - 1)).map (fun i =>
    let sim := cos (encode (windowText sents w i)) (encode (windowText sents w (i + 1)))
    let sim2 := max (-1 : ℚ) (min 1 sim)
    1 - sim2)

/-- `SemanticChunker._create_chunk`: merge `sentences_data[s:e]` into one
chunk (space-joined text, concatenated bounding boxes,
`{"sentence_count": ...}` metadata). -/
def createChunk (sents : List SentenceUnit) (s e : ℕ) : Chunk :=
  let subset := (sents.drop s).take (e - s)
  ⟨String.intercalate " " (subset.map (·.text)),
   (subset.map (·.bboxes)).flatten,
   [("sentence_count", (subset.length : Int))]⟩

/-- The split loop of `SemanticChunker.chunk` step 6: fold over
`enumerate(distances)`, emitting a chunk and advancing `start_idx`
whenever `dist > threshold`.  Returns the emitted chunks and the final
`start_idx`. -/
def splitFold (sents : List SentenceUnit) (threshold : ℚ) (ds : List ℚ) :
    List Chunk × ℕ :=
  ds.enum.foldl
    (fun (st : List Chunk × ℕ) p =>
      if threshold < p.2 then (st.1 ++ [createChunk sents st.2 (p.1 + 1)], p.1 + 1)
      else st)
    ([], 0)

/-- Steps 5–6 of `SemanticChunker.chunk`, after the sentences and their
adjacent distances are known: with no distances (a single sentence) return
one chunk of everything; otherwise split at every distance strictly above
the percentile threshold and close the final chunk. -/
def semanticChunkCore (pt : ℚ) (sents : List SentenceUnit) (ds : List ℚ) :
    List Chunk :=
  if ds = [] then [createChunk sents 0 1]
  else if (splitFold sents (npPercentile ds pt) ds).2 < sents.length then
    (splitFold sents (npPercentile ds pt) ds).1
      ++ [createChunk sents (splitFold sents (npPercentile ds pt) ds).2 sents.length]
  else (splitFold sents (npPercentile ds pt) ds).1

/-- `SemanticChunker.chunk`: extract sentences (empty extraction returns no
chunks), compute windowed adjacent distances, then split at the
`pt`-percentile threshold. -/
def semanticChunk {E : Type} (encode : String → E) (cos : E → E → ℚ)
    (pt : ℚ) (w : ℕ) (doc : Document) : List Chunk :=
  if extractSentences doc = [] then []
  else semanticChunkCore pt (extractSentences doc)
    (semDistances encode cos w (extractSentences doc))

/-! ## `TopicChunker` (`topic.py`) -/

/-- `TopicChunker._create_fallback_chunk`.  The source computes
`combined_text = " ".join(...)` but never uses it: the chunk's text is the
bare explanatory string, while its bounding boxes do cover every extracted
sentence unit. -/
def fallbackChunk (sents : List SentenceUnit) : List Chunk :=
  [⟨"Full Document (Too few sentences for topic modeling)",
    (sents.map (·.bboxes)).flatten, []⟩]

/-- Step 4 of `TopicChunker.chunk`: group the sentence units by their
k-means label, one (possibly empty) cluster per label `0 .. k-1`, members
kept in extraction order. -/
def topicClusters (k : ℕ) (labels : List ℕ) (sents : List SentenceUnit) :
    List (List SentenceUnit) :=
  (List.range k).map (fun label =>
    ((sents.enum.filter (fun p => labels.getD p.1 0 = label)).map (·.2)))

/-- `TopicChunker.chunk`, parametrised by the label list that
`KMeans(n_clusters=k, random_state=42, n_init=10).fit_predict` returns
(a black box; one label `< k` per sentence unit): empty extraction gives
no chunks; fewer sentences than topics gives the fallback chunk; otherwise
every non-empty cluster becomes one chunk with a `TOPIC n:` prefix,
`\n\n---\n\n`-separated member texts, concatenated bounding boxes and
`{"topic_id", "sentence_count"}` metadata. -/
def topicChunk (k : ℕ) (labels : List ℕ) (doc : Document) : List Chunk :=
  if extractSentences doc = [] then []
  else if (extractSentences doc).length < k then fallbackChunk (extractSentences doc)
  else
    (topicClusters k labels (extractSentences doc)).enum.filterMap (fun p =>
      if p.2 = [] then none
      else some ⟨"TOPIC " ++ toString (p.1 + 1) ++ ":\n"
                  ++ String.intercalate "\n\n---\n\n" (p.2.map (·.text)),
                 (p.2.map (·.bboxes)).flatten,
                 [("topic_id", (p.1 : Int)), ("sentence_count", (p.2.length : Int))]⟩)

/-! ## `Api.process_pdf` lookup path (`api.py`) -/

/-- The registry keys of `Api.__init__`: each chunker's `name` property, in
insertion order. -/
def algorithmNames : List String :=
  ["Basic Word Chunker", "Sentence Chunker",
   "Semantic Chunker (Percentile)", "Topic Chunker (K-Means k=5)"]

/-- Python `repr` of a list of strings, as f-string interpolation renders
`list(self.chunkers.keys())`. -/
def pyListRepr (l : List String) : String :=
  "[" ++ String.intercalate ", " (l.map (fun s => "\x27" ++ s ++ "\x27")) ++ "]"

/-- `Api.process_pdf` up to the algorithm dispatch: a missing file and an
unknown algorithm name each return a structured error value (the Python
code returns an `{"error": ...}` dict); otherwise the selected chunker
runs.  The chunking itself is abstracted by `run`. -/
def processPdf (fileExists : Bool) (algorithm_name : String)
    (run : String → List Chunk) : Except String (List Chunk) :=
  if !fileExists then .error "File not found"
  else if algorithm_name ∉ algorithmNames then
    .error ("Algorithm \x27" ++ algorithm_name ++ "\x27 not found. Available: "
            ++ pyListRepr algorithmNames)
  else .ok (run algorithm_name)

/-! ## Concrete example documents (used by counterexamples and witnesses) -/

/-- A one-page document with the single span `"Hello."` and one word. -/
def docOne : Document :=
  [⟨[⟨some [[⟨"Hello.", 0, 0, 1, 1⟩]]⟩], [⟨0, 0, 1, 1, "Hello.", 0, 0, 0⟩]⟩]

/-- A one-page document whose single block holds the spans `"A."` and
`"B."`: its extraction yields two sentence units. -/
def docTwo : Document :=
  [⟨[⟨some [[⟨"A.", 0, 0, 1, 1⟩, ⟨"B.", 0, 1, 1, 2⟩]]⟩], []⟩]

/-- A one-page document whose single block holds the spans `"Hi!"` and
`"Bye."`. -/
def docHiBye : Document :=
  [⟨[⟨some [[⟨"Hi!", 0, 0, 1, 1⟩, ⟨"Bye.", 0, 1, 1, 2⟩]]⟩], []⟩]

example : extractSentences docOne = [⟨"Hello.", [⟨0, 0, 0, 1, 1⟩]⟩] := by decide

example : (extractSentences docTwo).length = 2 := by decide

example : (sentenceChunk docHiBye).map (·.text) = ["Hi! Bye."] := by decide

example : (extractSentences docHiBye).length = 2 := by decide

example : npPercentile [1] 90 = 1 := by
  norm_num [npPercentile, interpAt, List.insertionSort, List.orderedInsert]

example : npPercentile [3, 1, 2] 100 = 3 := by
  norm_num [npPercentile, interpAt, List.insertionSort, List.orderedInsert]

example : npPercentile [3, 1, 2] 75 = 5/2 := by
  norm_num [npPercentile, interpAt, List.insertionSort, List.orderedInsert]

/-! ## Order lemmas about `npPercentile` -/

lemma sorted_getD_mono {s : List ℚ} (hs : s.Sorted (· ≤ ·)) {i j : ℕ}
    (hij : i ≤ j) (hj : j < s.length) : s.getD i 0 ≤ s.getD j 0 := by
  have hi : i < s.length := lt_of_le_of_lt hij hj
  rw [List.getD_eq_get _ _ hi, List.getD_eq_get _ _ hj]
  rcases eq_or_lt_of_le hij with he | hlt
  · subst he; exact le_refl _
  · exact hs.rel_get_of_lt (by simpa using hlt)

lemma interpAt_mono {s : List ℚ} (hs : s.Sorted (· ≤ ·)) {m : ℕ}
    (hm : s.length = m + 1) {h1 h2 : ℚ} (h0 : 0 ≤ h1) (h12 : h1 ≤ h2)
    (hM : h2 ≤ (m : ℚ)) : interpAt s m h1 ≤ interpAt s m h2 := by
  have h02 : 0 ≤ h2 := le_trans h0 h12
  set i1 := (⌊h1⌋).toNat with hi1
  set i2 := (⌊h2⌋).toNat with hi2
  have e1 : ((i1 : ℤ) : ℚ) = ((⌊h1⌋ : ℤ) : ℚ) := by
    rw [hi1, Int.toNat_of_nonneg (Int.floor_nonneg.mpr h0)]
  have e2 : ((i2 : ℤ) : ℚ) = ((⌊h2⌋ : ℤ) : ℚ) := by
    rw [hi2, Int.toNat_of_nonneg (Int.floor_nonneg.mpr h02)]
  have hc1 : (i1 : ℚ) ≤ h1 := by
    have := Int.floor_le h1
    rw [← e1] at this; exact_mod_cast this
  have hc2 : (i2 : ℚ) ≤ h2 := by
    have := Int.floor_le h2
    rw [← e2] at this; exact_mod_cast this
  have hu1 : h1 < (i1 : ℚ) + 1 := by
    have := Int.lt_floor_add_one h1
    rw [← e1] at this; exact_mod_cast this
  have hii : i1 ≤ i2 := by
    rw [hi1, hi2]; exact Int.toNat_le_toNat (Int.floor_le_floor h12)
  have hi2m : i2 ≤ m := by
    rw [hi2]
    have hfl : ⌊h2⌋ ≤ (m : ℤ) := by
      have := Int.floor_le_floor hM
      rwa [Int.floor_natCast] at this
    exact Int.toNat_le.mpr hfl
  simp only [interpAt, ← hi1, ← hi2]
  rcases eq_or_lt_of_le hii with he | hlt
  · rw [← he]
    by_cases h1m : i1 < m
    · rw [if_pos h1m, if_pos h1m]
      have hD : 0 ≤ s.getD (i1 + 1) 0 - s.getD i1 0 :=
        sub_nonneg.mpr (sorted_getD_mono hs (Nat.le_succ i1) (by omega))
      have : (h1 - (i1 : ℚ)) * (s.getD (i1 + 1) 0 - s.getD i1 0)
          ≤ (h2 - (i1 : ℚ)) * (s.getD (i1 + 1) 0 - s.getD i1 0) :=
        mul_le_mul_of_nonneg_right (by linarith) hD
      linarith
    · rw [if_neg h1m, if_neg h1m]
  · have h1m : i1 < m := lt_of_lt_of_le hlt hi2m
    rw [if_pos h1m]
    have hD1 : 0 ≤ s.getD (i1 + 1) 0 - s.getD i1 0 :=
      sub_nonneg.mpr (sorted_getD_mono hs (Nat.le_succ i1) (by omega))
    have up : s.getD i1 0 + (h1 - (i1 : ℚ)) * (s.getD (i1 + 1) 0 - s.getD i1 0)
        ≤ s.getD (i1 + 1) 0 := by
      have h1' : (h1 - (i1 : ℚ)) * (s.getD (i1 + 1) 0 - s.getD i1 0)
          ≤ 1 * (s.getD (i1 + 1) 0 - s.getD i1 0) :=
        mul_le_mul_of_nonneg_right (by linarith) hD1
      linarith
    have mid : s.getD (i1 + 1) 0 ≤ s.getD i2 0 :=
      sorted_getD_mono hs hlt (by omega)
    have low : s.getD i2 0 ≤
        (if i2 < m then
          s.getD i2 0 + (h2 - (i2 : ℚ)) * (s.getD (i2 + 1) 0 - s.getD i2 0)
         else s.getD m 0) := by
      by_cases h2m : i2 < m
      · rw [if_pos h2m]
        have hD2 : 0 ≤ s.getD (i2 + 1) 0 - s.getD i2 0 :=
          sub_nonneg.mpr (sorted_getD_mono hs (Nat.le_succ i2) (by omega))
        nlinarith
      · rw [if_neg h2m]
        have : i2 = m := le_antisymm hi2m (not_lt.mp h2m)
        rw [this]
    calc s.getD i1 0 + (h1 - (i1 : ℚ)) * (s.getD (i1 + 1) 0 - s.getD i1 0)
        ≤ s.getD (i1 + 1) 0 := up
      _ ≤ s.getD i2 0 := mid
      _ ≤ _ := low

lemma npPercentile_mono (l : List ℚ) {q1 q2 : ℚ} (h0 : 0 ≤ q1) (h12 : q1 ≤ q2)
    (h100 : q2 ≤ 100) : npPercentile l q1 ≤ npPercentile l q2 := by
  unfold npPercentile
  rcases eq_or_ne l [] with rfl | hne
  · simp [interpAt]
  · have hpos : 0 < l.length := List.length_pos.mpr hne
    have hlen : (l.insertionSort (· ≤ ·)).length = (l.length - 1) + 1 := by
      rw [(List.perm_insertionSort _ l).length_eq]; omega
    refine interpAt_mono (List.sorted_insertionSort _ l) hlen ?_ ?_ ?_
    · exact div_nonneg (mul_nonneg h0 (Nat.cast_nonneg _)) (by norm_num)
    · gcongr
    · rw [div_le_iff (by norm_num : (0:ℚ) < 100)]
      nlinarith [Nat.cast_nonneg (α := ℚ) (l.length - 1)]

lemma le_npPercentile_100 {l : List ℚ} {x : ℚ} (hx : x ∈ l) :
    x ≤ npPercentile l 100 := by
  unfold npPercentile
  have hne : l ≠ [] := List.ne_nil_of_mem hx
  have hpos : 0 < l.length := List.length_pos.mpr hne
  have hsl : (l.insertionSort (· ≤ ·)).length = l.length :=
    (List.perm_insertionSort _ l).length_eq
  have harg : (100 : ℚ) * ((l.length - 1 : ℕ) : ℚ) / 100 = ((l.length - 1 : ℕ) : ℚ) :=
    mul_div_cancel_left₀ _ (by norm_num)
  rw [harg]
  have hfloor : (⌊((l.length - 1 : ℕ) : ℚ)⌋).toNat = l.length - 1 := by
    rw [Int.floor_natCast]; exact Int.toNat_natCast _
  unfold interpAt
  rw [hfloor, if_neg (lt_irrefl _)]
  have hxs : x ∈ l.insertionSort (· ≤ ·) := ((List.perm_insertionSort _ l).mem_iff).mpr hx
  obtain ⟨j, hj⟩ := List.mem_iff_get.mp hxs
  have hle : (l.insertionSort (· ≤ ·)).getD j.1 0
      ≤ (l.insertionSort (· ≤ ·)).getD (l.length - 1) 0 := by
    refine sorted_getD_mono (List.sorted_insertionSort _ l) ?_ (by omega)
    have := j.2
    omega
  rw [List.getD_eq_get _ _ (by exact j.2)] at hle
  rw [← hj]
  exact hle

/-! ## Structure of the split loop of `SemanticChunker.chunk` -/

lemma splitFoldFrom_spec (sents : List SentenceUnit) (t : ℚ) :
    ∀ (ds : List ℚ) (k : ℕ) (cs : List Chunk) (s : ℕ), s ≤ k →
      ∀ r : List Chunk × ℕ,
        r = (ds.enumFrom k).foldl
          (fun (st : List Chunk × ℕ) p =>
            if t < p.2 then (st.1 ++ [createChunk sents st.2 (p.1 + 1)], p.1 + 1)
            else st) (cs, s) →
      r.1.length = cs.length + ds.countP (fun d => decide (t < d)) ∧
      r.2 ≤ k + ds.length ∧
      ∀ c ∈ r.1, c ∈ cs ∨ ∃ a b, a < b ∧ b ≤ k + ds.length ∧ c = createChunk sents a b := by
  intro ds
  induction ds with
  | nil =>
    intro k cs s hsk r hr
    simp only [List.enumFrom_nil, List.foldl_nil] at hr
    subst hr
    refine ⟨by simp, by simpa using hsk, ?_⟩
    intro c hc
    exact Or.inl hc
  | cons d ds ih =>
    intro k cs s hsk r hr
    rw [List.enumFrom_cons, List.foldl_cons] at hr
    by_cases htd : t < d
    · rw [if_pos htd] at hr
      obtain ⟨hl, hs, hmem⟩ := ih (k + 1) (cs ++ [createChunk sents s (k + 1)]) (k + 1)
        (le_refl _) r hr
      refine ⟨?_, by simp only [List.length_cons]; omega, ?_⟩
      · rw [hl, List.countP_cons, List.length_append]
        simp [htd]
        omega
      · intro c hc
        rcases hmem c hc with hin | ⟨a, b, hab, hb, hcc⟩
        · rcases List.mem_append.mp hin with h1 | h2
          · exact Or.inl h1
          · exact Or.inr ⟨s, k + 1, by omega, by simp only [List.length_cons]; omega,
              List.mem_singleton.mp h2⟩
        · exact Or.inr ⟨a, b, hab, by simp only [List.length_cons]; omega, hcc⟩
    · rw [if_neg htd] at hr
      obtain ⟨hl, hs, hmem⟩ := ih (k + 1) cs s (by omega) r hr
      refine ⟨?_, by simp only [List.length_cons]; omega, ?_⟩
      · rw [hl, List.countP_cons]
        simp [htd]
      · intro c hc
        rcases hmem c hc with hin | ⟨a, b, hab, hb, hcc⟩
        · exact Or.inl hin
        · exact Or.inr ⟨a, b, hab, by simp only [List.length_cons]; omega, hcc⟩

lemma splitFold_spec (sents : List SentenceUnit) (t : ℚ) (ds : List ℚ) :
    (splitFold sents t ds).1.length = ds.countP (fun d => decide (t < d)) ∧
    (splitFold sents t ds).2 ≤ ds.length ∧
    ∀ c ∈ (splitFold sents t ds).1,
      ∃ a b, a < b ∧ b ≤ ds.length ∧ c = createChunk sents a b := by
  have h := splitFoldFrom_spec sents t ds 0 [] 0 (le_refl 0)
    ((ds.enumFrom 0).foldl
      (fun (st : List Chunk × ℕ) p =>
        if t < p.2 then (st.1 ++ [createChunk sents st.2 (p.1 + 1)], p.1 + 1)
        else st) ([], 0)) rfl
  have he : splitFold sents t ds
      = (ds.enumFrom 0).foldl
        (fun (st : List Chunk × ℕ) p =>
          if t < p.2 then (st.1 ++ [createChunk sents st.2 (p.1 + 1)], p.1 + 1)
          else st) ([], 0) := by
    unfold splitFold
    rw [List.enum_eq_enumFrom]
  rw [he]
  obtain ⟨h1, h2, h3⟩ := h
  refine ⟨by simpa using h1, by simpa using h2, ?_⟩
  intro c hc
  rcases h3 c hc with hin | ⟨a, b, hab, hb, hcc⟩
  · simp at hin
  · exact ⟨a, b, hab, by simpa using hb, hcc⟩

lemma semDistances_length {E : Type} (encode : String → E) (cos : E → E → ℚ)
    (w : ℕ) (sents : List SentenceUnit) :
    (semDistances encode cos w sents).length = sents.length - 1 := by
  simp [semDistances]

lemma semanticChunkCore_length (pt : ℚ) (sents : List SentenceUnit) (ds : List ℚ)
    (hds : ds ≠ []) (hlen : ds.length < sents.length) :
    (semanticChunkCore pt sents ds).length
      = ds.countP (fun d => decide (npPercentile ds pt < d)) + 1 := by
  obtain ⟨h1, h2, _⟩ := splitFold_spec sents (npPercentile ds pt) ds
  unfold semanticChunkCore
  rw [if_neg hds, if_pos (lt_of_le_of_lt h2 hlen)]
  simp [h1]

/-! ## Non-empty bounding boxes: invariants of the extraction passes -/

lemma pyStrip_empty : "".pyStrip = "" := rfl

lemma extractStep_pres (page : ℕ) (acc : String × List BoundingBox) (sp : Span)
    (_h : acc.1.pyStrip ≠ "" → acc.2 ≠ []) :
    (extractStep page acc sp).1.1.pyStrip ≠ "" → (extractStep page acc sp).1.2 ≠ [] := by
  by_cases ht : endsTerminal sp.text
  · simp [extractStep, ht, pyStrip_empty]
  · simp [extractStep, ht]

lemma extractStep_emit (page : ℕ) (acc : String × List BoundingBox) (sp : Span)
    (u : SentenceUnit) (h : (extractStep page acc sp).2 = some u) : u.bboxes ≠ [] := by
  by_cases ht : endsTerminal sp.text
  · simp [extractStep, ht] at h
    subst h
    simp
  · simp [extractStep, ht] at h

lemma extractFold_inv (page : ℕ) (spans : List Span) :
    ∀ (acc : String × List BoundingBox) (out : List SentenceUnit),
      (acc.1.pyStrip ≠ "" → acc.2 ≠ []) → (∀ u ∈ out, u.bboxes ≠ []) →
      ((spans.foldl
          (fun (st : (String × List BoundingBox) × List SentenceUnit) sp =>
            let s2 := extractStep page st.1 sp
            (s2.1, st.2 ++ s2.2.toList))
          (acc, out)).1.1.pyStrip ≠ ""
        → (spans.foldl
          (fun (st : (String × List BoundingBox) × List SentenceUnit) sp =>
            let s2 := extractStep page st.1 sp
            (s2.1, st.2 ++ s2.2.toList))
          (acc, out)).1.2 ≠ []) ∧
      ∀ u ∈ (spans.foldl
          (fun (st : (String × List BoundingBox) × List SentenceUnit) sp =>
            let s2 := extractStep page st.1 sp
            (s2.1, st.2 ++ s2.2.toList))
          (acc, out)).2, u.bboxes ≠ [] := by
  induction spans with
  | nil =>
    intro acc out h1 h2
    exact ⟨h1, h2⟩
  | cons sp spans ih =>
    intro acc out h1 h2
    rw [List.foldl_cons]
    refine ih (extractStep page acc sp).1 (out ++ (extractStep page acc sp).2.toList)
      (extractStep_pres page acc sp h1) ?_
    intro u hu
    rcases List.mem_append.mp hu with hmem | hmem
    · exact h2 u hmem
    · cases hem : (extractStep page acc sp).2 with
      | none => rw [hem] at hmem; simp at hmem
      | some v =>
        rw [hem] at hmem
        simp at hmem
        rw [hmem]
        exact extractStep_emit page acc sp v hem

lemma extractBlock_bboxes (page : ℕ) (spans : List Span) :
    ∀ u ∈ extractBlock page spans, u.bboxes ≠ [] := by
  obtain ⟨h1, h2⟩ := extractFold_inv page spans ("", []) []
    (fun h => absurd pyStrip_empty h) (by simp)
  intro u hu
  simp only [extractBlock] at hu
  split at hu
  next hcond =>
    rcases List.mem_append.mp hu with hmem | hmem
    · exact h2 u hmem
    · rw [List.mem_singleton] at hmem
      rw [hmem]
      exact h1 hcond
  · exact h2 u hu

lemma extractSentences_bboxes (doc : Document) :
    ∀ u ∈ extractSentences doc, u.bboxes ≠ [] := by
  intro u hu
  unfold extractSentences at hu
  rw [List.mem_flatten] at hu
  obtain ⟨l, hl, hul⟩ := hu
  rw [List.mem_map] at hl
  obtain ⟨pr, _, rfl⟩ := hl
  unfold extractPage at hul
  rw [List.mem_flatten] at hul
  obtain ⟨l2, hl2, hul2⟩ := hul
  rw [List.mem_map] at hl2
  obtain ⟨lines, _, rfl⟩ := hl2
  exact extractBlock_bboxes _ _ u hul2

lemma sentStep_pres (page : ℕ) (acc : String × List BoundingBox) (sp : Span)
    (_h : acc.1.pyStrip ≠ "" → acc.2 ≠ []) :
    (sentStep page acc sp).1.1.pyStrip ≠ "" → (sentStep page acc sp).1.2 ≠ [] := by
  by_cases ht : endsPeriod sp.text
  · simp [sentStep, ht, pyStrip_empty]
  · simp [sentStep, ht]

lemma sentStep_emit (page : ℕ) (acc : String × List BoundingBox) (sp : Span)
    (c : Chunk) (h : (sentStep page acc sp).2 = some c) : c.bboxes ≠ [] := by
  by_cases ht : endsPeriod sp.text
  · simp [sentStep, ht] at h
    subst h
    simp
  · simp [sentStep, ht] at h

lemma sentFold_inv (page : ℕ) (spans : List Span) :
    ∀ (acc : String × List BoundingBox) (out : List Chunk),
      (acc.1.pyStrip ≠ "" → acc.2 ≠ []) → (∀ c ∈ out, c.bboxes ≠ []) →
      ((spans.foldl
          (fun (st : (String × List BoundingBox) × List Chunk) sp =>
            let s2 := sentStep page st.1 sp
            (s2.1, st.2 ++ s2.2.toList))
          (acc, out)).1.1.pyStrip ≠ ""
        → (spans.foldl
          (fun (st : (String × List BoundingBox) × List Chunk) sp =>
            let s2 := sentStep page st.1 sp
            (s2.1, st.2 ++ s2.2.toList))
          (acc, out)).1.2 ≠ []) ∧
      ∀ c ∈ (spans.foldl
          (fun (st : (String × List BoundingBox) × List Chunk) sp =>
            let s2 := sentStep page st.1 sp
            (s2.1, st.2 ++ s2.2.toList))
          (acc, out)).2, c.bboxes ≠ [] := by
  induction spans with
  | nil =>
    intro acc out h1 h2
    exact ⟨h1, h2⟩
  | cons sp spans ih =>
    intro acc out h1 h2
    rw [List.foldl_cons]
    refine ih (sentStep page acc sp).1 (out ++ (sentStep page acc sp).2.toList)
      (sentStep_pres page acc sp h1) ?_
    intro c hc
    rcases List.mem_append.mp hc with hmem | hmem
    · exact h2 c hmem
    · cases hem : (sentStep page acc sp).2 with
      | none => rw [hem] at hmem; simp at hmem
      | some v =>
        rw [hem] at hmem
        simp at hmem
        rw [hmem]
        exact sentStep_emit page acc sp v hem

lemma sentBlock_bboxes (page : ℕ) (spans : List Span) :
    ∀ c ∈ sentBlock page spans, c.bboxes ≠ [] := by
  obtain ⟨h1, h2⟩ := sentFold_inv page spans ("", []) []
    (fun h => absurd pyStrip_empty h) (by simp)
  intro c hc
  simp only [sentBlock] at hc
  split at hc
  next hcond =>
    rcases List.mem_append.mp hc with hmem | hmem
    · exact h2 c hmem
    · rw [List.mem_singleton] at hmem
      rw [hmem]
      exact h1 hcond
  · exact h2 c hc

lemma sentenceChunk_bboxes (doc : Document) :
    ∀ c ∈ sentenceChunk doc, c.bboxes ≠ [] := by
  intro c hc
  unfold sentenceChunk at hc
  rw [List.mem_flatten] at hc
  obtain ⟨l, hl, hcl⟩ := hc
  rw [List.mem_map] at hl
  obtain ⟨pr, _, rfl⟩ := hl
  rw [List.mem_flatten] at hcl
  obtain ⟨l2, hl2, hcl2⟩ := hcl
  rw [List.mem_map] at hl2
  obtain ⟨lines, _, rfl⟩ := hl2
  exact sentBlock_bboxes _ _ c hcl2

lemma createChunk_bboxes (sents : List SentenceUnit) (a b : ℕ) (hab : a < b)
    (ha : a < sents.length) (hu : ∀ u ∈ sents, u.bboxes ≠ []) :
    (createChunk sents a b).bboxes ≠ [] := by
  have hsub : ((sents.drop a).take (b - a)) ≠ [] := by
    rw [← List.length_pos, List.length_take, List.length_drop]
    omega
  obtain ⟨u, hu1⟩ := List.exists_mem_of_ne_nil _ hsub
  show ((((sents.drop a).take (b - a)).map (·.bboxes)).flatten) ≠ []
  intro hfl
  rw [List.flatten_eq_nil_iff] at hfl
  exact hu u (List.mem_of_mem_drop (List.mem_of_mem_take hu1))
    (hfl u.bboxes (List.mem_map_of_mem _ hu1))

lemma topic_cluster_members {k : ℕ} {labels : List ℕ} {sents : List SentenceUnit}
    {cl : List SentenceUnit} (hcl : cl ∈ topicClusters k labels sents) :
    ∀ u ∈ cl, u ∈ sents := by
  unfold topicClusters at hcl
  rw [List.mem_map] at hcl
  obtain ⟨label, _, rfl⟩ := hcl
  intro u hu
  rw [List.mem_map] at hu
  obtain ⟨p, hp, rfl⟩ := hu
  have hp2 := List.mem_of_mem_filter hp
  have := List.mem_map_of_mem Prod.snd hp2
  rwa [List.enum_map_snd] at this

/-! ## The topic clusters partition the sentence units -/

lemma sum_map_range_ite (x c : ℕ) :
    ∀ m : ℕ, (((List.range m).map (fun j => if x = j then c else 0)).sum)
      = if x < m then c else 0 := by
  intro m
  induction m with
  | zero => simp
  | succ m ih =>
    rw [List.range_succ, List.map_append, List.sum_append, ih]
    simp only [List.map_cons, List.map_nil, List.sum_cons, List.sum_nil, add_zero]
    rcases Nat.lt_trichotomy x m with h | h | h
    · rw [if_pos h, if_neg (by omega), if_pos (by omega), add_zero]
    · subst h
      rw [if_neg (lt_irrefl x), if_pos rfl, if_pos (by omega), zero_add]
    · rw [if_neg (by omega), if_neg (by omega), if_neg (by omega), add_zero]

lemma count_filter_eq {α : Type} [DecidableEq α] (f : α → ℕ) (j : ℕ) (l : List α)
    (a : α) :
    List.count a (l.filter (fun x => f x = j)) = if f a = j then List.count a l else 0 := by
  by_cases h : f a = j
  · rw [if_pos h]
    exact List.count_filter (by simpa using h)
  · rw [if_neg h]
    rw [List.count_eq_zero]
    intro hmem
    exact h (by simpa using (List.mem_filter.mp hmem).2)

lemma partition_flatten_perm {α : Type} [DecidableEq α] (f : α → ℕ) (k : ℕ)
    (l : List α) (hf : ∀ x ∈ l, f x < k) :
    (((List.range k).map (fun j => l.filter (fun x => f x = j))).flatten).Perm l := by
  rw [List.perm_iff_count]
  intro a
  rw [List.count_flatten, List.map_map]
  have hmc : (List.range k).map (List.count a ∘ fun j => l.filter (fun x => f x = j))
      = (List.range k).map (fun j => if f a = j then List.count a l else 0) :=
    List.map_congr_left (fun j _ => count_filter_eq f j l a)
  rw [hmc, sum_map_range_ite]
  by_cases ha : a ∈ l
  · rw [if_pos (hf a ha)]
  · rw [List.count_eq_zero.mpr ha]
    simp

lemma topicClusters_flatten_perm (k : ℕ) (labels : List ℕ)
    (sents : List SentenceUnit) (hlen : labels.length = sents.length)
    (hlt : ∀ l ∈ labels, l < k) :
    ((topicClusters k labels sents).flatten).Perm sents := by
  have hbound : ∀ p ∈ sents.enum,
      (fun p : ℕ × SentenceUnit => labels.getD p.1 0) p < k := by
    rintro ⟨i, x⟩ hp
    rw [List.enum_eq_enumFrom] at hp
    obtain ⟨-, hilt, -⟩ := List.mem_enumFrom hp
    have hi : i < labels.length := by rw [hlen]; omega
    show labels.getD i 0 < k
    rw [List.getD_eq_get labels 0 hi]
    exact hlt _ (List.get_mem labels _ _)
  have key := (partition_flatten_perm
    (fun p : ℕ × SentenceUnit => labels.getD p.1 0) k sents.enum hbound).map Prod.snd
  rw [List.map_flatten, List.map_map, List.enum_map_snd] at key
  unfold topicClusters
  exact key

/-! ## Helper lemmas for the claim theorems -/

lemma snd_mem_of_mem_enum {α : Type} {l : List α} {p : ℕ × α} (hp : p ∈ l.enum) :
    p.2 ∈ l := by
  have := List.mem_map_of_mem Prod.snd hp
  rwa [List.enum_map_snd] at this

lemma extractSentences_eq_nil (doc : Document)
    (h : ∀ p ∈ doc, ∀ b ∈ p.blocks, b.lines = none) :
    extractSentences doc = [] := by
  unfold extractSentences
  rw [List.flatten_eq_nil_iff]
  intro l hl
  rw [List.mem_map] at hl
  obtain ⟨pr, hpr, rfl⟩ := hl
  unfold extractPage
  rw [List.flatten_eq_nil_iff]
  intro l2 hl2
  rw [List.mem_map] at hl2
  obtain ⟨lines, hlines, rfl⟩ := hl2
  have hnil : pr.2.blocks.filterMap (·.lines) = [] := by
    rw [List.filterMap_eq_nil]
    intro b hb
    exact h pr.2 (snd_mem_of_mem_enum hpr) b hb
  rw [hnil] at hlines
  simp at hlines

lemma intercalate_singleton (s x : String) : s.intercalate [x] = x := rfl

/-! ## Claim theorems -/

/-- Claim C1 (code bug evidence): on a document with a single extracted
sentence unit `"Hello."` and `num_topics = 5`, the Clustering Chunker's
fallback chunk carries only the explanatory text
`"Full Document (Too few sentences for topic modeling)"` — the document's
own text is absent (the source computes `combined_text` but never uses
it) — while its bounding boxes do cover all extracted sentence units. -/
theorem topic_fallback_text_eval :
    extractSentences docOne = [⟨"Hello.", [⟨0, 0, 0, 1, 1⟩]⟩] ∧
    (extractSentences docOne).length < 5 ∧
    (topicChunk 5 [] docOne).map (·.text)
      = ["Full Document (Too few sentences for topic modeling)"] ∧
    (topicChunk 5 [] docOne).map (·.bboxes) = [[⟨0, 0, 0, 1, 1⟩]] :=
  ⟨by decide, by decide, by decide, by decide⟩

/-- Claim C2 (counterexample): the span `"Hi!"` has trimmed text ending in
the sentence-terminal character `!`, yet `SentenceChunker` does not close
its accumulator there (it only checks `.`): on a document holding spans
`"Hi!"` and `"Bye."`, `SentenceChunker` yields the single chunk
`"Hi! Bye."` while the extraction pass of the other chunkers yields the
two sentence units `"Hi!"` and `"Bye."`. -/
theorem sentence_chunker_terminal_counterexample :
    endsTerminal "Hi!" = true ∧
    (sentStep 0 ("", []) ⟨"Hi!", 0, 0, 1, 1⟩).2 = none ∧
    (sentenceChunk docHiBye).map (·.text) = ["Hi! Bye."] ∧
    (extractSentences docHiBye).map (·.text) = ["Hi!", "Bye."] :=
  ⟨by decide, by decide, by decide, by decide⟩

/-- Claim C2 (amended): in the `SemanticChunker`/`TopicChunker` extraction
pass the accumulator is closed exactly when the span's trimmed text ends
in `.`, `!` or `?`; in the `SentenceChunker` pass it is closed exactly
when the span's trimmed text ends in `.` alone. -/
theorem extraction_close_iff_terminal (page : ℕ) (acc : String × List BoundingBox)
    (sp : Span) :
    ((extractStep page acc sp).2.isSome = endsTerminal sp.text) ∧
    ((sentStep page acc sp).2.isSome = endsPeriod sp.text) := by
  constructor
  · by_cases ht : endsTerminal sp.text <;> simp [extractStep, ht]
  · by_cases ht : endsPeriod sp.text <;> simp [sentStep, ht]

/-- Claim C3 (counterexample): a document with zero extracted sentence
units (here: zero pages) has fewer than 2 sentence units, yet
`SemanticChunker.chunk` returns the empty chunk list, not a single chunk. -/
theorem semantic_empty_extraction_counterexample :
    (extractSentences ([] : Document)).length < 2 ∧
    semanticChunk (fun _ : String => ()) (fun _ _ => (1 : ℚ)) 90 1 ([] : Document) = [] :=
  ⟨by decide, by decide⟩

/-- Claim C3 (amended): a document whose extraction yields exactly one
sentence unit short-circuits to a single chunk containing the whole
extracted text and all its bounding boxes; with zero sentence units the
chunker returns the empty list instead. -/
theorem semantic_single_unit_chunk {E : Type} (encode : String → E)
    (cos : E → E → ℚ) (pt : ℚ) (w : ℕ) (doc : Document) (u : SentenceUnit)
    (h : extractSentences doc = [u]) :
    semanticChunk encode cos pt w doc = [⟨u.text, u.bboxes, [("sentence_count", 1)]⟩] := by
  unfold semanticChunk
  rw [h, if_neg (by simp)]
  unfold semanticChunkCore
  rw [if_pos (by simp [semDistances])]
  unfold createChunk
  simp [intercalate_singleton]

/-- Witness for C3's amended theorem at a concrete one-sentence document. -/
theorem semantic_single_unit_chunk_witness :
    extractSentences docOne = [⟨"Hello.", [⟨0, 0, 0, 1, 1⟩]⟩] ∧
    semanticChunk (fun _ : String => ()) (fun _ _ => (1 : ℚ)) 90 1 docOne
      = [⟨"Hello.", [⟨0, 0, 0, 1, 1⟩], [("sentence_count", 1)]⟩] :=
  ⟨by decide, semantic_single_unit_chunk (fun _ : String => ()) (fun _ _ => (1 : ℚ))
    90 1 docOne ⟨"Hello.", [⟨0, 0, 0, 1, 1⟩]⟩ (by decide)⟩

/-- Claim C7: for every algorithm name not in the registry, `process_pdf`
on an existing file returns a structured error value naming the requested
key and the list of valid keys, rather than raising. -/
theorem process_unknown_algorithm (name : String) (run : String → List Chunk)
    (h : name ∉ algorithmNames) :
    processPdf true name run = Except.error
      ("Algorithm \x27" ++ name ++ "\x27 not found. Available: "
        ++ pyListRepr algorithmNames) := by
  simp [processPdf, h]

/-- Witness for C7 at the concrete unknown name `"foo"`. -/
theorem process_unknown_algorithm_witness :
    "foo" ∉ algorithmNames ∧
    processPdf true "foo" (fun _ => []) = Except.error
      ("Algorithm \x27" ++ "foo" ++ "\x27 not found. Available: "
        ++ pyListRepr algorithmNames) :=
  ⟨by decide, process_unknown_algorithm "foo" (fun _ => []) (by decide)⟩

/-- Claim C8: a document with zero pages, or whose pages carry no words and
only blocks without lines, makes all four chunkers return the empty chunk
list rather than an error. -/
theorem empty_document_chunkers (doc : Document)
    (h : ∀ p ∈ doc, p.words = [] ∧ ∀ b ∈ p.blocks, b.lines = none) :
    basicWordChunk doc = [] ∧ sentenceChunk doc = [] ∧
    (∀ (E : Type) (encode : String → E) (cos : E → E → ℚ) (pt : ℚ) (w : ℕ),
      semanticChunk encode cos pt w doc = []) ∧
    (∀ (k : ℕ) (labels : List ℕ), topicChunk k labels doc = []) := by
  have hsent : extractSentences doc = [] :=
    extractSentences_eq_nil doc (fun p hp => (h p hp).2)
  refine ⟨?_, ?_, ?_, ?_⟩
  · unfold basicWordChunk
    rw [List.flatten_eq_nil_iff]
    intro l hl
    rw [List.mem_map] at hl
    obtain ⟨pr, hpr, rfl⟩ := hl
    rw [(h pr.2 (snd_mem_of_mem_enum hpr)).1]
    rfl
  · unfold sentenceChunk
    rw [List.flatten_eq_nil_iff]
    intro l hl
    rw [List.mem_map] at hl
    obtain ⟨pr, hpr, rfl⟩ := hl
    rw [List.flatten_eq_nil_iff]
    intro l2 hl2
    rw [List.mem_map] at hl2
    obtain ⟨lines, hlines, rfl⟩ := hl2
    have hnil : pr.2.blocks.filterMap (·.lines) = [] := by
      rw [List.filterMap_eq_nil]
      intro b hb
      exact (h pr.2 (snd_mem_of_mem_enum hpr)).2 b hb
    rw [hnil] at hlines
    simp at hlines
  · intro E encode cos pt w
    unfold semanticChunk
    rw [if_pos hsent]
  · intro k labels
    unfold topicChunk
    rw [if_pos hsent]

/-- Witness for C8 at the zero-page document. -/
theorem empty_document_chunkers_witness :
    (∀ p ∈ ([] : Document), p.words = [] ∧ ∀ b ∈ p.blocks, b.lines = none) ∧
    (basicWordChunk [] = [] ∧ sentenceChunk [] = [] ∧
      (∀ (E : Type) (encode : String → E) (cos : E → E → ℚ) (pt : ℚ) (w : ℕ),
        semanticChunk encode cos pt w [] = []) ∧
      (∀ (k : ℕ) (labels : List ℕ), topicChunk k labels [] = [])) :=
  ⟨by simp, empty_document_chunkers [] (by simp)⟩

lemma semanticChunk_length_eq {E : Type} (encode : String → E) (cos : E → E → ℚ)
    (pt : ℚ) (w : ℕ) (doc : Document)
    (h2 : 2 ≤ (extractSentences doc).length) :
    (semanticChunk encode cos pt w doc).length =
      (semDistances encode cos w (extractSentences doc)).countP
        (fun d => decide
          (npPercentile (semDistances encode cos w (extractSentences doc)) pt < d)) + 1 := by
  have hne : extractSentences doc ≠ [] := by
    intro hnil
    rw [hnil] at h2
    simp at h2
  unfold semanticChunk
  rw [if_neg hne]
  apply semanticChunkCore_length
  · apply List.length_pos.mp
    rw [semDistances_length]
    omega
  · rw [semDistances_length]
    omega

/-- Claim C4: for a document with at least 2 extracted sentence units, the
percentile-policy chunker's chunk count minus one (the number of split
points) equals the number of adjacent distances strictly exceeding the
computed percentile threshold. -/
theorem semantic_split_count {E : Type} (encode : String → E) (cos : E → E → ℚ)
    (pt : ℚ) (w : ℕ) (doc : Document)
    (h2 : 2 ≤ (extractSentences doc).length) :
    (semanticChunk encode cos pt w doc).length =
      (semDistances encode cos w (extractSentences doc)).countP
        (fun d => decide
          (npPercentile (semDistances encode cos w (extractSentences doc)) pt < d)) + 1 :=
  semanticChunk_length_eq encode cos pt w doc h2

/-- Witness for C4 at a concrete two-sentence document. -/
theorem semantic_split_count_witness :
    2 ≤ (extractSentences docTwo).length ∧
    (semanticChunk (fun _ : String => ()) (fun _ _ => (0 : ℚ)) 90 1 docTwo).length =
      (semDistances (fun _ : String => ()) (fun _ _ => (0 : ℚ)) 1
        (extractSentences docTwo)).countP
        (fun d => decide
          (npPercentile (semDistances (fun _ : String => ()) (fun _ _ => (0 : ℚ)) 1
            (extractSentences docTwo)) 90 < d)) + 1 :=
  ⟨by decide, semantic_split_count (fun _ : String => ()) (fun _ _ => (0 : ℚ))
    90 1 docTwo (by decide)⟩

/-- Claim C5: for a fixed document and fixed embedding/similarity
capabilities, the number of chunks produced by the percentile-policy
chunker is non-increasing as `percentile_threshold` is raised toward
100. -/
theorem semantic_chunk_count_antitone {E : Type} (encode : String → E)
    (cos : E → E → ℚ) (w : ℕ) (doc : Document) (q1 q2 : ℚ)
    (h0 : 0 ≤ q1) (h12 : q1 ≤ q2) (h100 : q2 ≤ 100) :
    (semanticChunk encode cos q2 w doc).length
      ≤ (semanticChunk encode cos q1 w doc).length := by
  by_cases hne : extractSentences doc = []
  · unfold semanticChunk
    rw [if_pos hne, if_pos hne]
  · by_cases h2 : 2 ≤ (extractSentences doc).length
    · rw [semanticChunk_length_eq encode cos q2 w doc h2,
        semanticChunk_length_eq encode cos q1 w doc h2]
      have hmono := npPercentile_mono
        (semDistances encode cos w (extractSentences doc)) h0 h12 h100
      have hcount := List.countP_mono_left
        (l := semDistances encode cos w (extractSentences doc))
        (p := fun d => decide
          (npPercentile (semDistances encode cos w (extractSentences doc)) q2 < d))
        (q := fun d => decide
          (npPercentile (semDistances encode cos w (extractSentences doc)) q1 < d))
        (by
          intro x _ hx
          simp only [decide_eq_true_eq] at hx ⊢
          linarith)
      omega
    · have hds : semDistances encode cos w (extractSentences doc) = [] := by
        apply List.length_eq_zero.mp
        rw [semDistances_length]
        have := List.length_pos.mpr hne
        omega
      unfold semanticChunk
      rw [if_neg hne, if_neg hne]
      unfold semanticChunkCore
      rw [if_pos hds, if_pos hds]

/-- Witness for C5 at a concrete document and thresholds 50 ≤ 90. -/
theorem semantic_chunk_count_antitone_witness :
    (0 : ℚ) ≤ 50 ∧ (50 : ℚ) ≤ 90 ∧ (90 : ℚ) ≤ 100 ∧
    (semanticChunk (fun _ : String => ()) (fun _ _ => (0 : ℚ)) 90 1 docTwo).length
      ≤ (semanticChunk (fun _ : String => ()) (fun _ _ => (0 : ℚ)) 50 1 docTwo).length :=
  ⟨by norm_num, by norm_num, by norm_num,
    semantic_chunk_count_antitone (fun _ : String => ()) (fun _ _ => (0 : ℚ))
      1 docTwo 50 90 (by norm_num) (by norm_num) (by norm_num)⟩

/-- Claim C10: with `percentile_threshold = 100` the threshold is the
maximum adjacent distance, no distance strictly exceeds it, and the
percentile-policy chunker returns exactly one chunk whenever extraction
yields at least one sentence unit. -/
theorem semantic_percentile100_single {E : Type} (encode : String → E)
    (cos : E → E → ℚ) (w : ℕ) (doc : Document)
    (h1 : 1 ≤ (extractSentences doc).length) :
    (semanticChunk encode cos 100 w doc).length = 1 := by
  have hne : extractSentences doc ≠ [] := by
    intro hnil
    rw [hnil] at h1
    simp at h1
  by_cases h2 : 2 ≤ (extractSentences doc).length
  · rw [semanticChunk_length_eq encode cos 100 w doc h2]
    have hzero : (semDistances encode cos w (extractSentences doc)).countP
        (fun d => decide
          (npPercentile (semDistances encode cos w (extractSentences doc)) 100 < d)) = 0 := by
      rw [List.countP_eq_zero]
      intro d hd
      simp only [decide_eq_true_eq]
      exact not_lt.mpr (le_npPercentile_100 hd)
    rw [hzero]
  · have hds : semDistances encode cos w (extractSentences doc) = [] := by
      apply List.length_eq_zero.mp
      rw [semDistances_length]
      omega
    unfold semanticChunk
    rw [if_neg hne]
    unfold semanticChunkCore
    rw [if_pos hds]
    rfl

/-- Witness for C10 at a concrete two-sentence document. -/
theorem semantic_percentile100_single_witness :
    1 ≤ (extractSentences docTwo).length ∧
    (semanticChunk (fun _ : String => ()) (fun _ _ => (0 : ℚ)) 100 1 docTwo).length = 1 :=
  ⟨by decide, semantic_percentile100_single (fun _ : String => ()) (fun _ _ => (0 : ℚ))
    1 docTwo (by decide)⟩

/-- Claim C6: with one valid k-means label per sentence unit, if a document
has at least `num_topics` sentence units then the topic clusters partition
the extracted units (their concatenation is a permutation of the
extraction — no omissions, no duplicates) and the chunk count is at most
`num_topics`; if the (non-zero) unit count is below `num_topics`, exactly
the single fallback chunk is returned. -/
theorem topic_partition (k : ℕ) (labels : List ℕ) (doc : Document)
    (hlen : labels.length = (extractSentences doc).length)
    (hlt : ∀ l ∈ labels, l < k) :
    (k ≤ (extractSentences doc).length →
      ((topicClusters k labels (extractSentences doc)).flatten).Perm
        (extractSentences doc) ∧
      (topicChunk k labels doc).length ≤ k) ∧
    (0 < (extractSentences doc).length → (extractSentences doc).length < k →
      topicChunk k labels doc = fallbackChunk (extractSentences doc) ∧
      (topicChunk k labels doc).length = 1) := by
  constructor
  · intro hk
    refine ⟨topicClusters_flatten_perm k labels _ hlen hlt, ?_⟩
    unfold topicChunk
    by_cases hne : extractSentences doc = []
    · rw [if_pos hne]
      simp
    · rw [if_neg hne, if_neg (by omega)]
      calc ((topicClusters k labels (extractSentences doc)).enum.filterMap _).length
          ≤ (topicClusters k labels (extractSentences doc)).enum.length :=
            List.length_filterMap_le _ _
        _ = k := by
            rw [List.enum_length]
            unfold topicClusters
            rw [List.length_map, List.length_range]
  · intro hpos hklt
    have hne : extractSentences doc ≠ [] := List.length_pos.mp hpos
    unfold topicChunk
    rw [if_neg hne, if_pos hklt]
    exact ⟨rfl, rfl⟩

/-- Witness for C6 at a concrete two-sentence document with two topics. -/
theorem topic_partition_witness :
    ([0, 1] : List ℕ).length = (extractSentences docTwo).length ∧
    (∀ l ∈ ([0, 1] : List ℕ), l < 2) ∧
    ((2 ≤ (extractSentences docTwo).length →
      ((topicClusters 2 [0, 1] (extractSentences docTwo)).flatten).Perm
        (extractSentences docTwo) ∧
      (topicChunk 2 [0, 1] docTwo).length ≤ 2) ∧
    (0 < (extractSentences docTwo).length → (extractSentences docTwo).length < 2 →
      topicChunk 2 [0, 1] docTwo = fallbackChunk (extractSentences docTwo) ∧
      (topicChunk 2 [0, 1] docTwo).length = 1)) :=
  ⟨by decide, by decide, topic_partition 2 [0, 1] docTwo (by decide) (by decide)⟩

/-- Claim C9: every chunk produced by any of the four chunkers has a
non-empty bounding-box list (a document that produced no text at all
produces no chunks, so the statement holds unconditionally of the chunks
that do exist). -/
theorem chunk_bboxes_nonempty {E : Type} (encode : String → E) (cos : E → E → ℚ)
    (pt : ℚ) (w k : ℕ) (labels : List ℕ) (doc : Document) (c : Chunk)
    (hc : c ∈ basicWordChunk doc ∨ c ∈ sentenceChunk doc
      ∨ c ∈ semanticChunk encode cos pt w doc ∨ c ∈ topicChunk k labels doc) :
    c.bboxes ≠ [] := by
  rcases hc with h | h | h | h
  · unfold basicWordChunk at h
    rw [List.mem_flatten] at h
    obtain ⟨l, hl, hcl⟩ := h
    rw [List.mem_map] at hl
    obtain ⟨pr, -, rfl⟩ := hl
    rw [List.mem_map] at hcl
    obtain ⟨wd, -, rfl⟩ := hcl
    simp
  · exact sentenceChunk_bboxes doc c h
  · have hsent := extractSentences_bboxes doc
    unfold semanticChunk at h
    split at h
    · simp at h
    next hne =>
      have hn : 0 < (extractSentences doc).length := List.length_pos.mpr hne
      unfold semanticChunkCore at h
      split at h
      · rw [List.mem_singleton] at h
        subst h
        exact createChunk_bboxes _ 0 1 one_pos hn hsent
      next hds =>
        obtain ⟨-, -, h3⟩ := splitFold_spec (extractSentences doc)
          (npPercentile (semDistances encode cos w (extractSentences doc)) pt)
          (semDistances encode cos w (extractSentences doc))
        have hdlen : (semDistances encode cos w (extractSentences doc)).length
            = (extractSentences doc).length - 1 := semDistances_length _ _ _ _
        split at h
        next hstart =>
          rcases List.mem_append.mp h with hin | hfin
          · obtain ⟨a, b, hab, hb, rfl⟩ := h3 c hin
            rw [hdlen] at hb
            exact createChunk_bboxes _ a b hab (by omega) hsent
          · rw [List.mem_singleton] at hfin
            subst hfin
            exact createChunk_bboxes _ _ _ hstart hstart hsent
        · obtain ⟨a, b, hab, hb, rfl⟩ := h3 c h
          rw [hdlen] at hb
          exact createChunk_bboxes _ a b hab (by omega) hsent
  · have hsent := extractSentences_bboxes doc
    unfold topicChunk at h
    split at h
    · simp at h
    next hne =>
      split at h
      · unfold fallbackChunk at h
        rw [List.mem_singleton] at h
        subst h
        show (((extractSentences doc).map (·.bboxes)).flatten) ≠ []
        intro hfl
        rw [List.flatten_eq_nil_iff] at hfl
        obtain ⟨u, hu⟩ := List.exists_mem_of_ne_nil _ hne
        exact hsent u hu (hfl u.bboxes (List.mem_map_of_mem _ hu))
      · rw [List.mem_filterMap] at h
        obtain ⟨p, hp, hsome⟩ := h
        by_cases hpe : p.2 = []
        · rw [if_pos hpe] at hsome
          simp at hsome
        · rw [if_neg hpe] at hsome
          have hc2 : c = ⟨"TOPIC " ++ toString (p.1 + 1) ++ ":\n"
              ++ String.intercalate "\n\n---\n\n" (p.2.map (·.text)),
              (p.2.map (·.bboxes)).flatten,
              [("topic_id", (p.1 : Int)), ("sentence_count", (p.2.length : Int))]⟩ :=
            (Option.some_inj.mp hsome).symm
          subst hc2
          show ((p.2.map (·.bboxes)).flatten) ≠ []
          intro hfl
          rw [List.flatten_eq_nil_iff] at hfl
          obtain ⟨u, hu⟩ := List.exists_mem_of_ne_nil _ hpe
          have hclmem : p.2 ∈ topicClusters k labels (extractSentences doc) :=
            snd_mem_of_mem_enum hp
          exact hsent u (topic_cluster_members hclmem u hu)
            (hfl u.bboxes (List.mem_map_of_mem _ hu))

/-- Witness for C9 at the word chunk of a concrete one-word document. -/
theorem chunk_bboxes_nonempty_witness :
    (Chunk.mk "Hello." [⟨0, 0, 0, 1, 1⟩] [("block", 0), ("line", 0)]
        ∈ basicWordChunk docOne
      ∨ Chunk.mk "Hello." [⟨0, 0, 0, 1, 1⟩] [("block", 0), ("line", 0)]
        ∈ sentenceChunk docOne
      ∨ Chunk.mk "Hello." [⟨0, 0, 0, 1, 1⟩] [("block", 0), ("line", 0)]
        ∈ semanticChunk (fun _ : String => ()) (fun _ _ => (0 : ℚ)) 90 1 docOne
      ∨ Chunk.mk "Hello." [⟨0, 0, 0, 1, 1⟩] [("block", 0), ("line", 0)]
        ∈ topicChunk 5 [] docOne) ∧
    (Chunk.mk "Hello." [⟨0, 0, 0, 1, 1⟩] [("block", 0), ("line", 0)]).bboxes ≠ [] :=
  ⟨Or.inl (by decide),
    chunk_bboxes_nonempty (fun _ : String => ()) (fun _ _ => (0 : ℚ)) 90 1 5 []
      docOne _ (Or.inl (by decide))⟩
